import Mathlib

/-!
Shallow embedding of the opponent-move resolution logic of the
SillyTavern-Chess extension (source: `src/webpack.config.js`, the bundled
extension script).  The two embedded components are:

* the resolver `parseMove` (source lines 181-202), which maps a generated
  reply string and the current legal-move list to an optional move candidate;
* the orchestrator `tryMoveOpponent` (source lines 129-179), which drives a
  bounded retry loop against an abstract text-generation collaborator and
  falls back to a random legal move.

The rules engine (chess.js), the rendering widget and the generation call are
external collaborators; they are abstracted as an `Engine` interface, an
event trace, and a `Nat → Except Unit String` oracle respectively, exactly as
the spec's §6 treats them.  JavaScript regular-expression matching is
translated by hand: `String.prototype.match` scans candidate start positions
left to right, tries the alternatives of the pattern in order at each
position, and returns the first (leftmost) match.
-/

/-- Character class `[a-h]` of the source's regexes (a board file). -/
def fileChar (c : Char) : Bool := decide ('a' ≤ c ∧ c ≤ 'h')

/-- Character class `[1-8]` of the source's regexes (a board rank). -/
def rankChar (c : Char) : Bool := decide ('1' ≤ c ∧ c ≤ '8')

/-- Character class `[NBRQK]` of the source's regexes (a piece letter). -/
def pieceChar (c : Char) : Bool :=
  c == 'N' || c == 'B' || c == 'R' || c == 'Q' || c == 'K'

/-- Character class `(\+|#)` of the source's notation regex. -/
def checkChar (c : Char) : Bool := c == '+' || c == '#'

/-- The whitespace trimming of `String(reply).trim()` (source line 182),
on the character list of the reply. -/
def jsTrim (l : List Char) : List Char :=
  ((l.dropWhile Char.isWhitespace).reverse.dropWhile Char.isWhitespace).reverse

/-- Does `t` spell a coordinate-pair token `[a-h][1-8]-[a-h][1-8]`
(the whole pattern of the regex on source line 183)? -/
def isCoordToken (t : List Char) : Bool :=
  match t with
  | [c0, c1, h, c2, c3] =>
    fileChar c0 && rankChar c1 && (h == '-') && fileChar c2 && rankChar c3
  | _ => false

/-- One attempt of the coordinate-pair regex at the current position: when the
next five characters form `[a-h][1-8]-[a-h][1-8]`, the match split on the
hyphen, i.e. the pair of the two squares (`regularMatch[0].split('-')`,
source line 186). -/
def coordHead (l : List Char) : Option (String × String) :=
  if isCoordToken (l.take 5) then
    some (String.mk (l.take 2), String.mk ((l.drop 3).take 2))
  else none

/-- Leftmost match of the coordinate-pair regex (source line 183): scan start
positions left to right, return the first position's match. -/
def findCoord : List Char → Option (String × String)
  | [] => none
  | c :: t =>
    match coordHead (c :: t) with
    | some p => some p
    | none => findCoord t

/-- The coordinate-pair pattern matches at start position `i` of `l`. -/
def coordOccursAt (l : List Char) (i : Nat) : Bool :=
  isCoordToken ((l.drop i).take 5)

/-- One optional character of the notation regex (a `(...)?` group): the list
of remainders after consuming it or not. -/
def optChar (p : Char → Bool) : List Char → List (List Char)
  | [] => [[]]
  | c :: t => if p c then [t, c :: t] else [c :: t]

/-- The optional promotion group `(=[NBRQK])?` of the notation regex
(source line 189): remainders after consuming `=` plus a piece letter, or
nothing. -/
def optPromo : List Char → List (List Char)
  | '=' :: c :: t => if pieceChar c then [t, '=' :: c :: t] else ['=' :: c :: t]
  | l => [l]

/-- The mandatory tail of the notation regex's first alternative: destination
square `([a-h][1-8])`, then `(=[NBRQK])?`, then `(\+|#)?`, then the end
anchor `$`. -/
def sanCore (l : List Char) : Bool :=
  match l with
  | c0 :: c1 :: t =>
    fileChar c0 && rankChar c1 &&
      ((optPromo t).flatMap (optChar checkChar)).any List.isEmpty
  | _ => false

/-- Membership of `l` in the language of the notation regex's first
alternative `([NBRQK])?([a-h])?([1-8])?(x)?([a-h][1-8])(=[NBRQK])?(\+|#)?$`
(source line 189): because that alternative is anchored at the end of the
string, a match starting at a position succeeds exactly when the whole
remaining suffix is in this language. -/
def sanSuffix (l : List Char) : Bool :=
  ((((optChar pieceChar l).flatMap (optChar fileChar)).flatMap
      (optChar rankChar)).flatMap (optChar (fun c => c == 'x'))).any sanCore

/-- The notation regex's second alternative `^O-O(-O)?` (source line 189),
anchored at the start of the string: the matched token, `(-O)?` greedy. -/
def castleTok : List Char → Option String
  | 'O' :: '-' :: 'O' :: '-' :: 'O' :: _ => some "O-O-O"
  | 'O' :: '-' :: 'O' :: _ => some "O-O"
  | _ => none

/-- Scan of the first (end-anchored) alternative over start positions 1,2,...:
the first suffix of `l` in the alternative's language. -/
def sanScan : List Char → Option (List Char)
  | [] => none
  | c :: t => if sanSuffix (c :: t) then some (c :: t) else sanScan t

/-- The full notation regex match `notationMatch[0]` of source line 189: at
start position 0 the first alternative is tried before `^O-O(-O)?`; at later
positions only the end-anchored alternative can match (the second is anchored
at the start), and the leftmost matching position wins. -/
def sanFind (l : List Char) : Option String :=
  if sanSuffix l then some (String.mk l)
  else
    match castleTok l with
    | some s => some s
    | none =>
      match l with
      | [] => none
      | _ :: t => (sanScan t).map String.mk

/-- Does `hay` begin with `needle`?  Used to model `String.prototype.includes`
and first-occurrence replacement. -/
def beginsWith : List Char → List Char → Bool
  | _, [] => true
  | [], _ :: _ => false
  | c :: ht, d :: nt => (c == d) && beginsWith ht nt

/-- JavaScript `hay.includes(needle)`: `needle` occurs contiguously in `hay`,
i.e. some start position of `hay` begins with it (the empty needle always
occurs). -/
def listContains : List Char → List Char → Bool
  | [], needle => beginsWith [] needle
  | c :: t, needle => beginsWith (c :: t) needle || listContains t needle

/-- Lowercasing of a character list, for the case-insensitive containment of
source line 196 (`reply.toLowerCase().includes(move.toLowerCase())`; the move
strings are ASCII, for which JavaScript and Lean lowercase agree). -/
def lowerL (l : List Char) : List Char := l.map Char.toLower

/-- Rule 3 of the resolver (source lines 195-199): the first legal move whose
lowercased text occurs in the lowercased reply. -/
def firstContained (tr : List Char) : List String → Option String
  | [] => none
  | m :: ms =>
    if listContains (lowerL tr) (lowerL m.data) then some m
    else firstContained tr ms

/-- A resolver result: `parseMove` returns either the origin/destination pair
of rule 1 (a two-element array in the source) or a single move string
(rule 2 or rule 3). -/
inductive ParseResult where
  | pair : String → String → ParseResult
  | san : String → ParseResult
deriving DecidableEq, Repr

/-- The resolver `parseMove` of source lines 181-202.  The source closes over
the enclosing `moves` list; here it is an explicit parameter.  `none` models
the `null` return (an unresolved reply). -/
def parseMove (reply : String) (moves : List String) : Option ParseResult :=
  let tr := jsTrim reply.data
  match findCoord tr with
  | some (o, d) => some (ParseResult.pair o d)
  | none =>
    match sanFind tr with
    | some s => some (ParseResult.san s)
    | none => (firstContained tr moves).map ParseResult.san

/-- Contiguous-substring occurrence, the specification-level reading of
"contains as a substring". -/
def isSub (needle hay : List Char) : Prop :=
  ∃ pre post, hay = pre ++ needle ++ post

example : parseMove "I would play e2-e4 here." ["d4"] =
    some (ParseResult.pair "e2" "e4") := by decide

example : parseMove "Nc6" [] = some (ParseResult.san "Nc6") := by decide

example : parseMove "I think so: exd5=Q+" [] =
    some (ParseResult.san "exd5=Q+") := by decide

example : parseMove "I have no idea what to play" ["e4", "Nf3", "d4"] =
    none := by decide

example : parseMove "I will play nf3 now!" ["e4", "Nf3", "d4"] =
    some (ParseResult.san "Nf3") := by decide

/-- Replacement of the first occurrence of `pat` in `s` by `rep`, modelling
JavaScript `String.prototype.replace` with a plain-string pattern
(source line 143). -/
def replaceFirstL (s pat rep : List Char) : List Char :=
  if beginsWith s pat then rep ++ s.drop pat.length
  else
    match s with
    | [] => []
    | c :: t => c :: replaceFirstL t pat rep

/-- String-level wrapper of `replaceFirstL`. -/
def replaceIn (s pat rep : String) : String :=
  String.mk (replaceFirstL s.data pat.data rep.data)

/-- The abstract rules engine (chess.js), spec §6: current turn, terminal
test, board exports, legal-move enumeration and move application.  Move
application returns `none` where the source's `game.move` throws on an
illegal or malformed candidate (chess.js leaves the position unchanged in
that case, which the explicit state passing makes literal). -/
structure Engine (γ : Type) where
  turn : γ → Char
  isGameOver : γ → Bool
  fen : γ → String
  ascii : γ → String
  moves : γ → List String
  applySan : γ → String → Option γ
  applyPair : γ → String → String → Option γ

/-- Observable events of one orchestrator invocation, in order: the legal-move
enumeration (`game.moves()`, line 139), a generation request with its prompt
and system prompt (line 151), a resolver call with the move list it was given
(line 152), an error logged by the catch block (line 170), a successful move
application (lines 159/163/177), a board redraw (`board.position`, lines
166/178), a status refresh (lines 167/179) and the random-fallback warning
(line 175). -/
inductive Ev where
  | movesQ : Ev
  | genReq : String → String → Ev
  | resolveCall : List String → Ev
  | errLog : Ev
  | applyPairOk : String → String → Ev
  | applySanOk : String → Ev
  | render : String → Ev
  | statusUpd : Ev
deriving DecidableEq, Repr

/-- The event also emitted before the fallback move (`console.warn`, source
line 175). -/
def Ev.warnRand : Ev := Ev.errLog

def Ev.isGen : Ev → Bool
  | .genReq _ _ => true
  | _ => false

def Ev.isMovesQ : Ev → Bool
  | .movesQ => true
  | _ => false

def Ev.isApply : Ev → Bool
  | .applyPairOk _ _ => true
  | .applySanOk _ => true
  | _ => false

def Ev.isRender : Ev → Bool
  | .render _ => true
  | _ => false

def Ev.isStatus : Ev → Bool
  | .statusUpd => true
  | _ => false

def Ev.isErr : Ev → Bool
  | .errLog => true
  | _ => false

def countGen (evs : List Ev) : Nat := evs.countP fun e => e.isGen

def countMovesQ (evs : List Ev) : Nat := evs.countP fun e => e.isMovesQ

def countApply (evs : List Ev) : Nat := evs.countP fun e => e.isApply

def countRender (evs : List Ev) : Nat := evs.countP fun e => e.isRender

def countStatus (evs : List Ev) : Nat := evs.countP fun e => e.isStatus

def countErr (evs : List Ev) : Nat := evs.countP fun e => e.isErr

/-- The role-instruction template `ChessGame.opponentMovePrompt` of source
line 67. -/
def opponentMovePrompt : String :=
  "You are a world-renowned chess grandmaster. You are given the representation of a chessboard state using the Forsyth-Edwards Notation (FEN) and ASCII. Select the best possible move from the list in algebraic notation and reply with JUST the move, e.g. \x27Nc6\x27. You are playing as \x7b\x7bcolor\x7d\x7d."

/-- `getOpponentColor` of source line 86. -/
def getOpponentColor (color : String) : String :=
  if color == "white" then "black" else "white"

/-- Upper-casing character by character, modelling JavaScript
`String.prototype.toUpperCase` on the ASCII color names. -/
def strUpper (s : String) : String := String.mk (s.data.map Char.toUpper)

/-- The system prompt of source lines 142-143: the template with `{{color}}`
replaced by the upper-cased opponent color. -/
def sysPromptFor (color : String) : String :=
  replaceIn opponentMovePrompt "\x7b\x7bcolor\x7d\x7d" (strUpper (getOpponentColor color))

/-- `movesString` of source line 149. -/
def movesStringOf (moves : List String) : String :=
  "Available moves:" ++ "\n" ++ String.intercalate ", " moves

/-- The position prompt of source line 150 (`[fen, ascii, movesString]`
joined by blank lines). -/
def promptOf (fen asciiBoard : String) (moves : List String) : String :=
  String.intercalate "\n\n" [fen, asciiBoard, movesStringOf moves]

/-- Application of a resolved candidate (source lines 158-164): a pair goes
through `game.move({from, to})`, a string through `game.move(move)`.  The
successful application is returned with its trace event. -/
def applyCand (eng : Engine γ) (g : γ) : ParseResult → Option (γ × Ev)
  | .pair o d => (eng.applyPair g o d).map fun g' => (g', Ev.applyPairOk o d)
  | .san s => (eng.applySan g s).map fun g' => (g', Ev.applySanOk s)

/-- One attempt body of the retry loop (the `try` block of source lines
148-165, given the result of the `generateRaw` call): a thrown generation
error resolves nothing without reaching the resolver; otherwise the reply is
passed to `parseMove` and a resolved candidate is applied.  The first
component is the successfully applied state with its trace event; the second
the attempt's resolver-call events. -/
def attemptRes (eng : Engine γ) (moves : List String) (g : γ) :
    Except Unit String → Option (γ × Ev) × List Ev
  | .error _ => (none, [])
  | .ok reply =>
    match parseMove reply moves with
    | none => (none, [Ev.resolveCall moves])
    | some cand =>
      match applyCand eng g cand with
      | none => (none, [Ev.resolveCall moves])
      | some (g', ev) => (some (g', ev), [Ev.resolveCall moves])

/-- The retry loop of source lines 147-172.  `gen` is the text-generation
collaborator indexed by the attempt number (it may fail, modelling a thrown
network or model error); `i` is the next attempt's index and the second
argument the remaining attempts.  The prompt, system prompt and move list are
the loop-invariant values captured before the loop (source lines 138-143; the
source rebuilds the identical prompt string from them on each iteration).  A
caught failure logs and continues; a success applies the move, redraws the
board, refreshes the status and returns. -/
def moveLoop (eng : Engine γ) (gen : Nat → Except Unit String)
    (prompt sys : String) (moves : List String) (g : γ) :
    Nat → Nat → Option γ × List Ev
  | _, 0 => (none, [])
  | i, r + 1 =>
    let a := attemptRes eng moves g (gen i)
    match a.1 with
    | none =>
      let rest := moveLoop eng gen prompt sys moves g (i + 1) r
      (rest.1, Ev.genReq prompt sys :: a.2 ++ Ev.errLog :: rest.2)
    | some (g', ev) =>
      (some g', Ev.genReq prompt sys :: a.2 ++
        [ev, Ev.render (eng.fen g'), Ev.statusUpd])

/-- `isOpponentTurn` of source lines 291-293. -/
def isOpponentTurn (eng : Engine γ) (color : String) (g : γ) : Bool :=
  (eng.turn g == 'w' && color == "black") || (eng.turn g == 'b' && color == "white")

/-- The orchestrator `tryMoveOpponent` of source lines 129-179.  `q` models
the `Math.random()` draw of line 176 (a value in `[0,1)`); the fallback index
is `Math.floor(q * moves.length)`.  The result state is `none` exactly where
an exception would escape the method (the fallback's unguarded `game.move`
throwing, unreachable for a sound engine on a non-terminal position); the
event list is the observable trace.  A failed precondition returns the state
untouched with an empty trace. -/
def tryMoveOpponent (eng : Engine γ) (color : String)
    (gen : Nat → Except Unit String) (q : ℚ) (g : γ) : Option γ × List Ev :=
  if !(isOpponentTurn eng color g) then (some g, [])
  else if eng.isGameOver g then (some g, [])
  else
    let fen := eng.fen g
    let moves := eng.moves g
    let asciiBoard := eng.ascii g
    let sys := sysPromptFor color
    let prompt := promptOf fen asciiBoard moves
    let out := moveLoop eng gen prompt sys moves g 0 3
    match out.1 with
    | some g' => (some g', Ev.movesQ :: out.2)
    | none =>
      let idx := (⌊q * (moves.length : ℚ)⌋).toNat
      match moves[idx]? with
      | none => (none, Ev.movesQ :: out.2 ++ [Ev.warnRand])
      | some mv =>
        match eng.applySan g mv with
        | none => (none, Ev.movesQ :: out.2 ++ [Ev.warnRand])
        | some g' =>
          (some g', Ev.movesQ :: out.2 ++
            [Ev.warnRand, Ev.applySanOk mv, Ev.render (eng.fen g'), Ev.statusUpd])

/-- A small concrete engine instance used by witnesses and counterexamples:
positions are move counters, the side to move alternates, three fixed legal
moves, and every application advances the counter. -/
def demoEng : Engine Nat where
  turn := fun g => if g % 2 == 0 then 'w' else 'b'
  isGameOver := fun _ => false
  fen := fun g => toString g
  ascii := fun _ => "board"
  moves := fun _ => ["e4", "Nf3", "d4"]
  applySan := fun g _ => some (g + 1)
  applyPair := fun g _ _ => some (g + 1)

/-- A generation collaborator that always fails (a thrown error on every
attempt). -/
def genErr : Nat → Except Unit String := fun _ => Except.error ()

/-- A generation collaborator whose first two calls fail and whose third
reply is a plain move token. -/
def genLate : Nat → Except Unit String :=
  fun i => if i < 2 then Except.error () else Except.ok "e4"


/-!  Characterisations of the resolver's scanning functions. -/


theorem bfalse {b : Bool} (h : ¬ b = true) : b = false := Bool.eq_false_iff.mpr h

theorem coordHead_eq_none (l : List Char) (hb : isCoordToken (l.take 5) = false) :
    coordHead l = none := by
  simp only [coordHead, hb, Bool.false_eq_true, if_false]

theorem coordHead_pos (l : List Char) (hb : isCoordToken (l.take 5) = true) :
    coordHead l = some (String.mk (l.take 2), String.mk ((l.drop 3).take 2)) := by
  simp only [coordHead, hb, if_true]

theorem findCoord_cons (c : Char) (t : List Char) :
    findCoord (c :: t) =
      match coordHead (c :: t) with
      | some p => some p
      | none => findCoord t := rfl

theorem findCoord_eq_none_iff (l : List Char) :
    findCoord l = none ↔ ∀ i, coordOccursAt l i = false := by
  induction l with
  | nil =>
    simp only [findCoord, true_iff]
    intro i
    simp [coordOccursAt, isCoordToken]
  | cons c t ih =>
    by_cases hb : isCoordToken ((c :: t).take 5) = true
    · constructor
      · intro h
        rw [findCoord_cons, coordHead_pos _ hb] at h
        simp at h
      · intro h
        have h0 := h 0
        simp only [coordOccursAt, List.drop_zero] at h0
        rw [h0] at hb
        cases hb
    · have hb' : isCoordToken ((c :: t).take 5) = false := bfalse hb
      rw [findCoord_cons, coordHead_eq_none _ hb']
      show findCoord t = none ↔ _
      rw [ih]
      constructor
      · intro h i
        cases i with
        | zero =>
          simp only [coordOccursAt, List.drop_zero]
          exact hb'
        | succ j =>
          have := h j
          simp only [coordOccursAt] at this ⊢
          rw [List.drop_succ_cons]
          exact this
      · intro h j
        have := h (j + 1)
        simp only [coordOccursAt] at this ⊢
        rw [List.drop_succ_cons] at this
        exact this

theorem findCoord_min (l : List Char) (j : Nat)
    (hj : coordOccursAt l j = true)
    (hmin : ∀ k, k < j → coordOccursAt l k = false) :
    findCoord l =
      some (String.mk ((l.drop j).take 2), String.mk (((l.drop j).drop 3).take 2)) := by
  induction l generalizing j with
  | nil => simp [coordOccursAt, isCoordToken] at hj
  | cons c t ih =>
    cases j with
    | zero =>
      have hb : isCoordToken ((c :: t).take 5) = true := by
        simpa only [coordOccursAt, List.drop_zero] using hj
      simp only [List.drop_zero]
      rw [findCoord_cons, coordHead_pos _ hb]
    | succ j' =>
      have h0 := hmin 0 (Nat.succ_pos _)
      have hb : isCoordToken ((c :: t).take 5) = false := by
        simpa only [coordOccursAt, List.drop_zero] using h0
      have ht : coordOccursAt t j' = true := by
        simpa only [coordOccursAt, List.drop_succ_cons] using hj
      have hmint : ∀ k, k < j' → coordOccursAt t k = false := by
        intro k hk
        simpa only [coordOccursAt, List.drop_succ_cons] using hmin (k + 1) (Nat.succ_lt_succ hk)
      rw [findCoord_cons, coordHead_eq_none _ hb]
      show findCoord t = _
      rw [List.drop_succ_cons]
      exact ih j' ht hmint

theorem sanSuffix_nil : sanSuffix [] = false := by decide

theorem sanScan_cons (c : Char) (t : List Char) :
    sanScan (c :: t) = if sanSuffix (c :: t) then some (c :: t) else sanScan t := rfl

theorem sanScan_eq_none_iff (l : List Char) :
    sanScan l = none ↔ ∀ i, sanSuffix (l.drop i) = false := by
  induction l with
  | nil =>
    simp only [sanScan, true_iff]
    intro i
    rw [List.drop_nil]
    exact sanSuffix_nil
  | cons c t ih =>
    by_cases hb : sanSuffix (c :: t) = true
    · constructor
      · intro h
        rw [sanScan_cons, if_pos hb] at h
        cases h
      · intro h
        have h0 := h 0
        rw [List.drop_zero] at h0
        rw [h0] at hb
        cases hb
    · have hb' : sanSuffix (c :: t) = false := bfalse hb
      rw [sanScan_cons, if_neg hb, ih]
      constructor
      · intro h i
        cases i with
        | zero =>
          rw [List.drop_zero]
          exact hb'
        | succ j =>
          rw [List.drop_succ_cons]
          exact h j
      · intro h j
        have := h (j + 1)
        rw [List.drop_succ_cons] at this
        exact this

theorem sanScan_min (l : List Char) (j : Nat)
    (hj : sanSuffix (l.drop j) = true)
    (hmin : ∀ k, k < j → sanSuffix (l.drop k) = false) :
    sanScan l = some (l.drop j) := by
  induction l generalizing j with
  | nil =>
    rw [List.drop_nil] at hj
    rw [sanSuffix_nil] at hj
    cases hj
  | cons c t ih =>
    cases j with
    | zero =>
      have hb : sanSuffix (c :: t) = true := by
        simpa only [List.drop_zero] using hj
      rw [List.drop_zero, sanScan_cons, if_pos hb]
    | succ j' =>
      have h0 := hmin 0 (Nat.succ_pos _)
      have hb : sanSuffix (c :: t) = false := by
        simpa only [List.drop_zero] using h0
      have ht : sanSuffix (t.drop j') = true := by
        simpa only [List.drop_succ_cons] using hj
      have hmint : ∀ k, k < j' → sanSuffix (t.drop k) = false := by
        intro k hk
        simpa only [List.drop_succ_cons] using hmin (k + 1) (Nat.succ_lt_succ hk)
      rw [sanScan_cons, if_neg (by rw [hb]; exact Bool.false_ne_true), List.drop_succ_cons]
      exact ih j' ht hmint

theorem sanFind_eq_none_iff (l : List Char) :
    sanFind l = none ↔ (∀ i, sanSuffix (l.drop i) = false) ∧ castleTok l = none := by
  by_cases h0 : sanSuffix l = true
  · simp only [sanFind, h0, if_true]
    constructor
    · intro h
      cases h
    · intro h
      have := h.1 0
      rw [List.drop_zero, h0] at this
      cases this
  · have h0' : sanSuffix l = false := bfalse h0
    simp only [sanFind, h0', Bool.false_eq_true, if_false]
    cases l with
    | nil =>
      constructor
      · intro _
        refine ⟨fun i => ?_, rfl⟩
        rw [List.drop_nil]
        exact sanSuffix_nil
      · intro _
        rfl
    | cons c t =>
      cases hcc : castleTok (c :: t) with
      | some s =>
        constructor
        · intro h
          simp at h
        · intro h
          cases h.2
      | none =>
        show (sanScan t).map String.mk = none ↔ _
        rw [Option.map_eq_none', sanScan_eq_none_iff]
        constructor
        · intro h
          refine ⟨fun i => ?_, rfl⟩
          cases i with
          | zero =>
            rw [List.drop_zero]
            exact h0'
          | succ j =>
            rw [List.drop_succ_cons]
            exact h j
        · intro h j
          have := h.1 (j + 1)
          rw [List.drop_succ_cons] at this
          exact this

theorem sanFind_of_min (l : List Char) (j : Nat) (hj0 : 0 < j)
    (h0 : sanSuffix l = false) (hc : castleTok l = none)
    (hj : sanSuffix (l.drop j) = true)
    (hmin : ∀ k, k < j → sanSuffix (l.drop k) = false) :
    sanFind l = some (String.mk (l.drop j)) := by
  cases l with
  | nil =>
    rw [List.drop_nil, sanSuffix_nil] at hj
    cases hj
  | cons c t =>
    cases j with
    | zero => exact absurd hj0 (by simp)
    | succ j' =>
      have ht : sanSuffix (t.drop j') = true := by
        simpa only [List.drop_succ_cons] using hj
      have hmint : ∀ k, k < j' → sanSuffix (t.drop k) = false := by
        intro k hk
        simpa only [List.drop_succ_cons] using hmin (k + 1) (Nat.succ_lt_succ hk)
      have hscan := sanScan_min t j' ht hmint
      simp only [sanFind, h0, Bool.false_eq_true, if_false, hc, hscan, Option.map_some',
        List.drop_succ_cons]

/-!  Containment and the rule-3 scan. -/

theorem beginsWith_iff (hay needle : List Char) :
    beginsWith hay needle = true ↔ ∃ rest, hay = needle ++ rest := by
  induction needle generalizing hay with
  | nil =>
    constructor
    · intro _
      exact ⟨hay, by simp⟩
    · intro _
      cases hay <;> rfl
  | cons d nt ih =>
    cases hay with
    | nil =>
      constructor
      · intro h
        cases h
      · rintro ⟨rest, h⟩
        cases h
    | cons c ht =>
      rw [show beginsWith (c :: ht) (d :: nt) = ((c == d) && beginsWith ht nt) from rfl]
      rw [Bool.and_eq_true, beq_iff_eq, ih]
      constructor
      · rintro ⟨rfl, rest, rfl⟩
        exact ⟨rest, rfl⟩
      · rintro ⟨rest, h⟩
        injection h with h1 h2
        exact ⟨h1, rest, h2⟩

theorem listContains_iff (hay needle : List Char) :
    listContains hay needle = true ↔ isSub needle hay := by
  induction hay with
  | nil =>
    show beginsWith [] needle = true ↔ _
    rw [beginsWith_iff]
    constructor
    · rintro ⟨rest, hr⟩
      exact ⟨[], rest, by simpa using hr⟩
    · rintro ⟨pre, post, h⟩
      rcases List.append_eq_nil.mp h.symm with ⟨h1, _⟩
      rcases List.append_eq_nil.mp h1 with ⟨_, h4⟩
      subst h4
      exact ⟨[], by simp⟩
  | cons c t ih =>
    show (beginsWith (c :: t) needle || listContains t needle) = true ↔ _
    rw [Bool.or_eq_true, beginsWith_iff, ih]
    constructor
    · rintro (⟨rest, hr⟩ | hsub)
      · exact ⟨[], rest, by simpa using hr⟩
      · obtain ⟨pre, post, hp⟩ := hsub
        exact ⟨c :: pre, post, by simp [hp]⟩
    · rintro ⟨pre, post, hp⟩
      cases pre with
      | nil =>
        left
        exact ⟨post, by simpa using hp⟩
      | cons p pt =>
        right
        simp only [List.cons_append] at hp
        injection hp with hp1 hp2
        exact ⟨pt, post, hp2⟩

theorem firstContained_eq_none_iff (tr : List Char) (L : List String) :
    firstContained tr L = none ↔
      ∀ m ∈ L, listContains (lowerL tr) (lowerL m.data) = false := by
  induction L with
  | nil => simp [firstContained]
  | cons a ms ih =>
    cases hb : listContains (lowerL tr) (lowerL a.data) with
    | true => simp [firstContained, hb]
    | false => simp [firstContained, hb, ih]

theorem firstContained_first (tr : List Char) (L : List String) (m : String)
    (hm : m ∈ L) (hc : listContains (lowerL tr) (lowerL m.data) = true) :
    ∃ L₁ L₂ m', L = L₁ ++ m' :: L₂ ∧
      listContains (lowerL tr) (lowerL m'.data) = true ∧
      (∀ x ∈ L₁, listContains (lowerL tr) (lowerL x.data) = false) ∧
      firstContained tr L = some m' := by
  induction L with
  | nil => cases hm
  | cons a ms ih =>
    cases hb : listContains (lowerL tr) (lowerL a.data) with
    | true =>
      exact ⟨[], ms, a, rfl, hb, by simp, by simp [firstContained, hb]⟩
    | false =>
      have hm' : m ∈ ms := by
        rcases List.mem_cons.mp hm with h | h
        · subst h
          rw [hc] at hb
          cases hb
        · exact h
      obtain ⟨L₁, L₂, m', he, hc', hall, hf⟩ := ih hm'
      refine ⟨a :: L₁, L₂, m', by simp [he], hc', ?_, by simp [firstContained, hb, hf]⟩
      intro x hx
      rcases List.mem_cons.mp hx with h | h
      · subst h
        exact hb
      · exact hall x h

/-!  Trimming lemmas. -/

theorem head_dropWhile_false (p : Char → Bool) (l : List Char) (a : Char)
    (h : (l.dropWhile p).head? = some a) : p a = false := by
  induction l with
  | nil => cases h
  | cons c t ih =>
    by_cases hc : p c = true
    · rw [List.dropWhile_cons, if_pos hc] at h
      exact ih h
    · rw [List.dropWhile_cons, if_neg hc] at h
      rw [List.head?_cons] at h
      injection h with h1
      rw [← h1]
      exact bfalse hc

theorem dropWhile_of_head (p : Char → Bool) (x : List Char)
    (h : ∀ a, x.head? = some a → p a = false) : x.dropWhile p = x := by
  cases x with
  | nil => rfl
  | cons c u =>
    have := h c rfl
    rw [List.dropWhile_cons, if_neg (by rw [this]; exact Bool.false_ne_true)]

theorem dropWhile_idem (p : Char → Bool) (l : List Char) :
    (l.dropWhile p).dropWhile p = l.dropWhile p := by
  apply dropWhile_of_head
  intro a ha
  exact head_dropWhile_false p l a ha

theorem getLast_dropWhile (p : Char → Bool) (l : List Char) :
    l.dropWhile p = [] ∨ (l.dropWhile p).getLast? = l.getLast? := by
  induction l with
  | nil => exact Or.inl rfl
  | cons c t ih =>
    by_cases hc : p c = true
    · cases t with
      | nil =>
        left
        rw [List.dropWhile_cons, if_pos hc]
        rfl
      | cons b u =>
        rw [List.dropWhile_cons, if_pos hc]
        rcases ih with h | h
        · exact Or.inl h
        · right
          rw [h, List.getLast?_cons_cons]
    · right
      rw [List.dropWhile_cons, if_neg hc]

theorem jsTrim_idem (l : List Char) : jsTrim (jsTrim l) = jsTrim l := by
  unfold jsTrim
  have hstep :
      ((l.dropWhile Char.isWhitespace).reverse.dropWhile
          Char.isWhitespace).reverse.dropWhile Char.isWhitespace =
        ((l.dropWhile Char.isWhitespace).reverse.dropWhile Char.isWhitespace).reverse := by
    apply dropWhile_of_head
    intro a ha
    rw [List.head?_reverse] at ha
    rcases getLast_dropWhile Char.isWhitespace (l.dropWhile Char.isWhitespace).reverse with
      h | h
    · rw [h] at ha
      cases ha
    · rw [h, List.getLast?_reverse] at ha
      exact head_dropWhile_false _ l a ha
  rw [hstep, List.reverse_reverse, dropWhile_idem]

theorem isSub_dropWhile (p : Char → Bool) (t l : List Char) (hne : t ≠ [])
    (hws : ∀ c ∈ t, p c = false) (h : isSub t l) : isSub t (l.dropWhile p) := by
  induction l with
  | nil =>
    rcases h with ⟨pre, post, h⟩
    rcases List.append_eq_nil.mp h.symm with ⟨h1, _⟩
    rcases List.append_eq_nil.mp h1 with ⟨_, h3⟩
    exact absurd h3 hne
  | cons c l' ih =>
    by_cases hc : p c = true
    · rw [List.dropWhile_cons, if_pos hc]
      apply ih
      rcases h with ⟨pre, post, h⟩
      cases pre with
      | nil =>
        cases t with
        | nil => exact absurd rfl hne
        | cons a t' =>
          simp only [List.nil_append, List.cons_append] at h
          injection h with h1 h2
          rw [h1] at hc
          rw [hws a (List.mem_cons_self a t')] at hc
          cases hc
      | cons q pre' =>
        simp only [List.cons_append] at h
        injection h with h1 h2
        exact ⟨pre', post, h2⟩
    · rw [List.dropWhile_cons, if_neg hc]
      exact h

theorem isSub_reverse (t l : List Char) (h : isSub t l) : isSub t.reverse l.reverse := by
  rcases h with ⟨pre, post, h⟩
  refine ⟨post.reverse, pre.reverse, ?_⟩
  rw [h]
  simp [List.reverse_append, List.append_assoc]

theorem isSub_jsTrim (t l : List Char) (hne : t ≠ [])
    (hws : ∀ c ∈ t, Char.isWhitespace c = false) (h : isSub t l) :
    isSub t (jsTrim l) := by
  unfold jsTrim
  have h1 := isSub_dropWhile Char.isWhitespace t l hne hws h
  have h2 := isSub_reverse _ _ h1
  have h3 := isSub_dropWhile Char.isWhitespace t.reverse _ (by simpa using hne)
    (fun c hc => hws c (List.mem_reverse.mp hc)) h2
  have h4 := isSub_reverse _ _ h3
  simpa using h4

theorem isCoordToken_length (t : List Char) (ht : isCoordToken t = true) :
    t.length = 5 := by
  cases t with
  | nil => cases ht
  | cons a t1 =>
    cases t1 with
    | nil => cases ht
    | cons b t2 =>
      cases t2 with
      | nil => cases ht
      | cons c3 t3 =>
        cases t3 with
        | nil => cases ht
        | cons d t4 =>
          cases t4 with
          | nil => cases ht
          | cons e t5 =>
            cases t5 with
            | nil => rfl
            | cons f t6 => cases ht

theorem isSub_coordOccurs (tr t : List Char) (ht : isCoordToken t = true)
    (h : isSub t tr) : ∃ i, coordOccursAt tr i = true := by
  rcases h with ⟨pre, post, hh⟩
  refine ⟨pre.length, ?_⟩
  rw [coordOccursAt, hh, List.append_assoc, List.drop_left]
  have hlen := isCoordToken_length t ht
  rw [← hlen, List.take_left]
  exact ht

/-!  Facts about the retry loop's trace. -/

theorem attemptRes_evs (eng : Engine γ) (moves : List String) (g : γ)
    (res : Except Unit String) :
    countGen (attemptRes eng moves g res).2 = 0 ∧
    countApply (attemptRes eng moves g res).2 = 0 ∧
    countRender (attemptRes eng moves g res).2 = 0 ∧
    countStatus (attemptRes eng moves g res).2 = 0 ∧
    countMovesQ (attemptRes eng moves g res).2 = 0 ∧
    countErr (attemptRes eng moves g res).2 = 0 ∧
    ∀ L', Ev.resolveCall L' ∈ (attemptRes eng moves g res).2 → L' = moves := by
  cases res with
  | error e =>
    simp [attemptRes, countGen, countApply, countRender, countStatus, countMovesQ, countErr]
  | ok reply =>
    cases hp : parseMove reply moves with
    | none =>
      simp [attemptRes, hp, countGen, countApply, countRender, countStatus, countMovesQ,
        countErr, Ev.isGen, Ev.isApply, Ev.isRender, Ev.isStatus, Ev.isMovesQ, Ev.isErr]
    | some cand =>
      cases ha : applyCand eng g cand with
      | none =>
        simp [attemptRes, hp, ha, countGen, countApply, countRender, countStatus,
          countMovesQ, countErr, Ev.isGen, Ev.isApply, Ev.isRender, Ev.isStatus,
          Ev.isMovesQ, Ev.isErr]
      | some ge =>
        simp [attemptRes, hp, ha, countGen, countApply, countRender, countStatus,
          countMovesQ, countErr, Ev.isGen, Ev.isApply, Ev.isRender, Ev.isStatus,
          Ev.isMovesQ, Ev.isErr]

theorem attemptRes_some (eng : Engine γ) (moves : List String) (g : γ)
    (res : Except Unit String) (g' : γ) (ev : Ev)
    (h : (attemptRes eng moves g res).1 = some (g', ev)) :
    ∃ reply cand, res = Except.ok reply ∧ parseMove reply moves = some cand ∧
      applyCand eng g cand = some (g', ev) ∧
      (attemptRes eng moves g res).2 = [Ev.resolveCall moves] := by
  cases res with
  | error e => cases h
  | ok reply =>
    cases hp : parseMove reply moves with
    | none =>
      rw [show attemptRes eng moves g (Except.ok reply) =
        (none, [Ev.resolveCall moves]) from by simp [attemptRes, hp]] at h
      cases h
    | some cand =>
      cases ha : applyCand eng g cand with
      | none =>
        rw [show attemptRes eng moves g (Except.ok reply) =
          (none, [Ev.resolveCall moves]) from by simp [attemptRes, hp, ha]] at h
        cases h
      | some ge =>
        rw [show attemptRes eng moves g (Except.ok reply) =
          (some ge, [Ev.resolveCall moves]) from by simp [attemptRes, hp, ha]] at h
        injection h with h1
        refine ⟨reply, cand, rfl, hp, ?_, by simp [attemptRes, hp, ha]⟩
        rw [ha, h1]

theorem moveLoop_zero (eng : Engine γ) (gen : Nat → Except Unit String)
    (p s : String) (moves : List String) (g : γ) (i : Nat) :
    moveLoop eng gen p s moves g i 0 = (none, []) := rfl

theorem moveLoop_succ (eng : Engine γ) (gen : Nat → Except Unit String)
    (p s : String) (moves : List String) (g : γ) (i r : Nat) :
    moveLoop eng gen p s moves g i (r + 1) =
      match (attemptRes eng moves g (gen i)).1 with
      | none =>
        ((moveLoop eng gen p s moves g (i + 1) r).1,
          Ev.genReq p s :: (attemptRes eng moves g (gen i)).2 ++
            Ev.errLog :: (moveLoop eng gen p s moves g (i + 1) r).2)
      | some (g', ev) =>
        (some g', Ev.genReq p s :: (attemptRes eng moves g (gen i)).2 ++
          [ev, Ev.render (eng.fen g'), Ev.statusUpd]) := rfl

theorem countGen_nil : countGen [] = 0 := rfl

theorem countGen_cons (e : Ev) (evs : List Ev) :
    countGen (e :: evs) = countGen evs + (if e.isGen then 1 else 0) :=
  List.countP_cons _ _ _

theorem countGen_append (l1 l2 : List Ev) :
    countGen (l1 ++ l2) = countGen l1 + countGen l2 :=
  List.countP_append _ _ _

theorem countApply_nil : countApply [] = 0 := rfl

theorem countApply_cons (e : Ev) (evs : List Ev) :
    countApply (e :: evs) = countApply evs + (if e.isApply then 1 else 0) :=
  List.countP_cons _ _ _

theorem countApply_append (l1 l2 : List Ev) :
    countApply (l1 ++ l2) = countApply l1 + countApply l2 :=
  List.countP_append _ _ _

theorem countRender_nil : countRender [] = 0 := rfl

theorem countRender_cons (e : Ev) (evs : List Ev) :
    countRender (e :: evs) = countRender evs + (if e.isRender then 1 else 0) :=
  List.countP_cons _ _ _

theorem countRender_append (l1 l2 : List Ev) :
    countRender (l1 ++ l2) = countRender l1 + countRender l2 :=
  List.countP_append _ _ _

theorem countStatus_nil : countStatus [] = 0 := rfl

theorem countStatus_cons (e : Ev) (evs : List Ev) :
    countStatus (e :: evs) = countStatus evs + (if e.isStatus then 1 else 0) :=
  List.countP_cons _ _ _

theorem countStatus_append (l1 l2 : List Ev) :
    countStatus (l1 ++ l2) = countStatus l1 + countStatus l2 :=
  List.countP_append _ _ _

theorem countMovesQ_nil : countMovesQ [] = 0 := rfl

theorem countMovesQ_cons (e : Ev) (evs : List Ev) :
    countMovesQ (e :: evs) = countMovesQ evs + (if e.isMovesQ then 1 else 0) :=
  List.countP_cons _ _ _

theorem countMovesQ_append (l1 l2 : List Ev) :
    countMovesQ (l1 ++ l2) = countMovesQ l1 + countMovesQ l2 :=
  List.countP_append _ _ _

theorem countErr_nil : countErr [] = 0 := rfl

theorem countErr_cons (e : Ev) (evs : List Ev) :
    countErr (e :: evs) = countErr evs + (if e.isErr then 1 else 0) :=
  List.countP_cons _ _ _

theorem countErr_append (l1 l2 : List Ev) :
    countErr (l1 ++ l2) = countErr l1 + countErr l2 :=
  List.countP_append _ _ _

/-!  Evaluation of the trace-event discriminators on each constructor. -/

@[simp] theorem isGen_movesQ : Ev.isGen (Ev.movesQ) = false := rfl

@[simp] theorem isGen_genReq (p s : String) : Ev.isGen (Ev.genReq p s) = true := rfl

@[simp] theorem isGen_resolveCall (L : List String) : Ev.isGen (Ev.resolveCall L) = false := rfl

@[simp] theorem isGen_errLog : Ev.isGen (Ev.errLog) = false := rfl

@[simp] theorem isGen_applyPairOk (o d : String) : Ev.isGen (Ev.applyPairOk o d) = false := rfl

@[simp] theorem isGen_applySanOk (m : String) : Ev.isGen (Ev.applySanOk m) = false := rfl

@[simp] theorem isGen_render (f : String) : Ev.isGen (Ev.render f) = false := rfl

@[simp] theorem isGen_statusUpd : Ev.isGen (Ev.statusUpd) = false := rfl

@[simp] theorem isMovesQ_movesQ : Ev.isMovesQ (Ev.movesQ) = true := rfl

@[simp] theorem isMovesQ_genReq (p s : String) : Ev.isMovesQ (Ev.genReq p s) = false := rfl

@[simp] theorem isMovesQ_resolveCall (L : List String) : Ev.isMovesQ (Ev.resolveCall L) = false := rfl

@[simp] theorem isMovesQ_errLog : Ev.isMovesQ (Ev.errLog) = false := rfl

@[simp] theorem isMovesQ_applyPairOk (o d : String) : Ev.isMovesQ (Ev.applyPairOk o d) = false := rfl

@[simp] theorem isMovesQ_applySanOk (m : String) : Ev.isMovesQ (Ev.applySanOk m) = false := rfl

@[simp] theorem isMovesQ_render (f : String) : Ev.isMovesQ (Ev.render f) = false := rfl

@[simp] theorem isMovesQ_statusUpd : Ev.isMovesQ (Ev.statusUpd) = false := rfl

@[simp] theorem isApply_movesQ : Ev.isApply (Ev.movesQ) = false := rfl

@[simp] theorem isApply_genReq (p s : String) : Ev.isApply (Ev.genReq p s) = false := rfl

@[simp] theorem isApply_resolveCall (L : List String) : Ev.isApply (Ev.resolveCall L) = false := rfl

@[simp] theorem isApply_errLog : Ev.isApply (Ev.errLog) = false := rfl

@[simp] theorem isApply_applyPairOk (o d : String) : Ev.isApply (Ev.applyPairOk o d) = true := rfl

@[simp] theorem isApply_applySanOk (m : String) : Ev.isApply (Ev.applySanOk m) = true := rfl

@[simp] theorem isApply_render (f : String) : Ev.isApply (Ev.render f) = false := rfl

@[simp] theorem isApply_statusUpd : Ev.isApply (Ev.statusUpd) = false := rfl

@[simp] theorem isRender_movesQ : Ev.isRender (Ev.movesQ) = false := rfl

@[simp] theorem isRender_genReq (p s : String) : Ev.isRender (Ev.genReq p s) = false := rfl

@[simp] theorem isRender_resolveCall (L : List String) : Ev.isRender (Ev.resolveCall L) = false := rfl

@[simp] theorem isRender_errLog : Ev.isRender (Ev.errLog) = false := rfl

@[simp] theorem isRender_applyPairOk (o d : String) : Ev.isRender (Ev.applyPairOk o d) = false := rfl

@[simp] theorem isRender_applySanOk (m : String) : Ev.isRender (Ev.applySanOk m) = false := rfl

@[simp] theorem isRender_render (f : String) : Ev.isRender (Ev.render f) = true := rfl

@[simp] theorem isRender_statusUpd : Ev.isRender (Ev.statusUpd) = false := rfl

@[simp] theorem isStatus_movesQ : Ev.isStatus (Ev.movesQ) = false := rfl

@[simp] theorem isStatus_genReq (p s : String) : Ev.isStatus (Ev.genReq p s) = false := rfl

@[simp] theorem isStatus_resolveCall (L : List String) : Ev.isStatus (Ev.resolveCall L) = false := rfl

@[simp] theorem isStatus_errLog : Ev.isStatus (Ev.errLog) = false := rfl

@[simp] theorem isStatus_applyPairOk (o d : String) : Ev.isStatus (Ev.applyPairOk o d) = false := rfl

@[simp] theorem isStatus_applySanOk (m : String) : Ev.isStatus (Ev.applySanOk m) = false := rfl

@[simp] theorem isStatus_render (f : String) : Ev.isStatus (Ev.render f) = false := rfl

@[simp] theorem isStatus_statusUpd : Ev.isStatus (Ev.statusUpd) = true := rfl

@[simp] theorem isErr_movesQ : Ev.isErr (Ev.movesQ) = false := rfl

@[simp] theorem isErr_genReq (p s : String) : Ev.isErr (Ev.genReq p s) = false := rfl

@[simp] theorem isErr_resolveCall (L : List String) : Ev.isErr (Ev.resolveCall L) = false := rfl

@[simp] theorem isErr_errLog : Ev.isErr (Ev.errLog) = true := rfl

@[simp] theorem isErr_applyPairOk (o d : String) : Ev.isErr (Ev.applyPairOk o d) = false := rfl

@[simp] theorem isErr_applySanOk (m : String) : Ev.isErr (Ev.applySanOk m) = false := rfl

@[simp] theorem isErr_render (f : String) : Ev.isErr (Ev.render f) = false := rfl

@[simp] theorem isErr_statusUpd : Ev.isErr (Ev.statusUpd) = false := rfl

theorem applyCand_ev (eng : Engine γ) (g : γ) (cand : ParseResult) (g' : γ) (ev : Ev)
    (h : applyCand eng g cand = some (g', ev)) :
    ev.isGen = false ∧ ev.isApply = true ∧ ev.isRender = false ∧ ev.isStatus = false ∧
      ev.isMovesQ = false ∧ ev.isErr = false := by
  cases cand with
  | pair o d =>
    cases hp : eng.applyPair g o d with
    | none =>
      rw [applyCand, hp] at h
      cases h
    | some g2 =>
      rw [applyCand, hp] at h
      simp only [Option.map_some'] at h
      injection h with h1
      injection h1 with h2 h3
      rw [← h3]
      exact ⟨rfl, rfl, rfl, rfl, rfl, rfl⟩
  | san m =>
    cases hp : eng.applySan g m with
    | none =>
      rw [applyCand, hp] at h
      cases h
    | some g2 =>
      rw [applyCand, hp] at h
      simp only [Option.map_some'] at h
      injection h with h1
      injection h1 with h2 h3
      rw [← h3]
      exact ⟨rfl, rfl, rfl, rfl, rfl, rfl⟩

theorem moveLoop_countGen_le (eng : Engine γ) (gen : Nat → Except Unit String)
    (p s : String) (moves : List String) (g : γ) :
    ∀ r i, countGen (moveLoop eng gen p s moves g i r).2 ≤ r := by
  intro r
  induction r with
  | zero =>
    intro i
    simp [moveLoop_zero, countGen_nil]
  | succ r ih =>
    intro i
    rw [moveLoop_succ]
    obtain ⟨hg, -, -, -, -, -, -⟩ := attemptRes_evs eng moves g (gen i)
    cases ha : (attemptRes eng moves g (gen i)).1 with
    | none =>
      have := ih (i + 1)
      simp [countGen_cons, countGen_append, hg]
      omega
    | some ge =>
      obtain ⟨g', ev⟩ := ge
      obtain ⟨reply, cand, -, -, hac, -⟩ := attemptRes_some eng moves g (gen i) g' ev ha
      obtain ⟨hevg, -, -, -, -, -⟩ := applyCand_ev eng g cand g' ev hac
      simp [countGen_cons, countGen_append, countGen_nil, hg, hevg]

theorem moveLoop_none_counts (eng : Engine γ) (gen : Nat → Except Unit String)
    (p s : String) (moves : List String) (g : γ) :
    ∀ r i, (moveLoop eng gen p s moves g i r).1 = none →
      countGen (moveLoop eng gen p s moves g i r).2 = r ∧
      countApply (moveLoop eng gen p s moves g i r).2 = 0 ∧
      countRender (moveLoop eng gen p s moves g i r).2 = 0 ∧
      countStatus (moveLoop eng gen p s moves g i r).2 = 0 ∧
      countMovesQ (moveLoop eng gen p s moves g i r).2 = 0 ∧
      countErr (moveLoop eng gen p s moves g i r).2 = r := by
  intro r
  induction r with
  | zero =>
    intro i _
    simp [moveLoop_zero, countGen_nil, countApply_nil, countRender_nil, countStatus_nil,
      countMovesQ_nil, countErr_nil]
  | succ r ih =>
    intro i h
    obtain ⟨hg, hap, hre, hst, hmq, her, -⟩ := attemptRes_evs eng moves g (gen i)
    rw [moveLoop_succ] at h ⊢
    cases ha : (attemptRes eng moves g (gen i)).1 with
    | none =>
      rw [ha] at h
      obtain ⟨ih1, ih2, ih3, ih4, ih5, ih6⟩ := ih (i + 1) h
      simp [countGen_cons, countGen_append, countApply_cons, countApply_append,
        countRender_cons, countRender_append, countStatus_cons, countStatus_append,
        countMovesQ_cons, countMovesQ_append, countErr_cons, countErr_append,
        hg, hap, hre, hst, hmq, her, ih1, ih2, ih3, ih4, ih5, ih6]
    | some ge =>
      rw [ha] at h
      obtain ⟨g', ev⟩ := ge
      simp at h

theorem moveLoop_some (eng : Engine γ) (gen : Nat → Except Unit String)
    (p s : String) (moves : List String) (g : γ) :
    ∀ r i g', (moveLoop eng gen p s moves g i r).1 = some g' →
      ∃ k reply cand ev evs₁,
        i ≤ k ∧ k < i + r ∧
        gen k = Except.ok reply ∧
        parseMove reply moves = some cand ∧
        applyCand eng g cand = some (g', ev) ∧
        (moveLoop eng gen p s moves g i r).2 =
          evs₁ ++ Ev.genReq p s :: Ev.resolveCall moves ::
            [ev, Ev.render (eng.fen g'), Ev.statusUpd] ∧
        countApply evs₁ = 0 ∧ countRender evs₁ = 0 ∧ countStatus evs₁ = 0 ∧
        countMovesQ evs₁ = 0 ∧
        countGen evs₁ + 1 = countGen (moveLoop eng gen p s moves g i r).2 := by
  intro r
  induction r with
  | zero =>
    intro i g' h
    cases h
  | succ r ih =>
    intro i g' h
    obtain ⟨hg, hap, hre, hst, hmq, her, -⟩ := attemptRes_evs eng moves g (gen i)
    rw [moveLoop_succ] at h ⊢
    cases ha : (attemptRes eng moves g (gen i)).1 with
    | none =>
      rw [ha] at h
      simp only at h ⊢
      obtain ⟨k, reply, cand, ev, evs₁, hik, hkr, hgen, hpar, happ, htr, c1, c2, c3, c4, c5⟩ :=
        ih (i + 1) g' h
      refine ⟨k, reply, cand, ev,
        Ev.genReq p s :: (attemptRes eng moves g (gen i)).2 ++ Ev.errLog :: evs₁,
        by omega, by omega, hgen, hpar, happ, ?_, ?_, ?_, ?_, ?_, ?_⟩
      · simp only [htr, List.cons_append, List.append_assoc]
      · simp [countApply_cons, countApply_append, hap, c1]
      · simp [countRender_cons, countRender_append, hre, c2]
      · simp [countStatus_cons, countStatus_append, hst, c3]
      · simp [countMovesQ_cons, countMovesQ_append, hmq, c4]
      · simp only [countGen_cons, countGen_append, hg, isGen_genReq, isGen_errLog]
        omega
    | some ge =>
      obtain ⟨g2, ev⟩ := ge
      rw [ha] at h
      simp only at h ⊢
      injection h with h1
      obtain ⟨reply, cand, hgen, hpar, happ, hevs⟩ :=
        attemptRes_some eng moves g (gen i) g2 ev ha
      obtain ⟨hevg, -, -, -, -, -⟩ := applyCand_ev eng g cand g2 ev happ
      rw [h1] at happ
      refine ⟨i, reply, cand, ev, [], Nat.le_refl i, by omega, hgen, hpar, happ, ?_,
        countApply_nil, countRender_nil, countStatus_nil, countMovesQ_nil, ?_⟩
      · rw [hevs, h1]
        simp
      · rw [hevs]
        simp [countGen_nil, countGen_cons, countGen_append, hevg]

theorem moveLoop_resolve (eng : Engine γ) (gen : Nat → Except Unit String)
    (p s : String) (moves : List String) (g : γ) :
    ∀ r i L', Ev.resolveCall L' ∈ (moveLoop eng gen p s moves g i r).2 → L' = moves := by
  intro r
  induction r with
  | zero =>
    intro i L' h
    cases h
  | succ r ih =>
    intro i L' h
    obtain ⟨-, -, -, -, -, -, hmem⟩ := attemptRes_evs eng moves g (gen i)
    rw [moveLoop_succ] at h
    cases ha : (attemptRes eng moves g (gen i)).1 with
    | none =>
      rw [ha] at h
      simp only [List.cons_append, List.mem_cons, List.mem_append] at h
      rcases h with h | h | h | h
      · simp at h
      · exact hmem L' h
      · simp at h
      · exact ih (i + 1) L' h
    | some ge =>
      obtain ⟨g2, ev⟩ := ge
      rw [ha] at h
      obtain ⟨reply, cand, -, -, happ, hevs⟩ :=
        attemptRes_some eng moves g (gen i) g2 ev ha
      obtain ⟨-, hevap, -, -, -, -⟩ := applyCand_ev eng g cand g2 ev happ
      rw [hevs] at h
      simp at h
      rcases h with h | h
      · exact h
      · rw [← h] at hevap
        simp at hevap

theorem moveLoop_fail_step (eng : Engine γ) (gen : Nat → Except Unit String)
    (p s : String) (moves : List String) (g : γ) (i r : Nat)
    (h : gen i = Except.error () ∨
      (∃ reply, gen i = Except.ok reply ∧ parseMove reply moves = none) ∨
      (∃ reply cand, gen i = Except.ok reply ∧ parseMove reply moves = some cand ∧
        applyCand eng g cand = none)) :
    (moveLoop eng gen p s moves g i (r + 1)).1 = (moveLoop eng gen p s moves g (i + 1) r).1 ∧
    countGen (moveLoop eng gen p s moves g i (r + 1)).2 =
      countGen (moveLoop eng gen p s moves g (i + 1) r).2 + 1 ∧
    countErr (moveLoop eng gen p s moves g i (r + 1)).2 =
      countErr (moveLoop eng gen p s moves g (i + 1) r).2 + 1 ∧
    countApply (moveLoop eng gen p s moves g i (r + 1)).2 =
      countApply (moveLoop eng gen p s moves g (i + 1) r).2 ∧
    countRender (moveLoop eng gen p s moves g i (r + 1)).2 =
      countRender (moveLoop eng gen p s moves g (i + 1) r).2 ∧
    countStatus (moveLoop eng gen p s moves g i (r + 1)).2 =
      countStatus (moveLoop eng gen p s moves g (i + 1) r).2 := by
  have ha : (attemptRes eng moves g (gen i)).1 = none := by
    rcases h with h | ⟨reply, h1, h2⟩ | ⟨reply, cand, h1, h2, h3⟩
    · rw [h]
      rfl
    · rw [h1]
      simp [attemptRes, h2]
    · rw [h1]
      simp [attemptRes, h2, h3]
  obtain ⟨hg, hap, hre, hst, hmq, her, -⟩ := attemptRes_evs eng moves g (gen i)
  rw [moveLoop_succ, ha]
  refine ⟨rfl, ?_, ?_, ?_, ?_, ?_⟩
  · simp [countGen_cons, countGen_append, hg, Nat.add_comm]
  · simp [countErr_cons, countErr_append, her, Nat.add_comm]
  · simp [countApply_cons, countApply_append, hap]
  · simp [countRender_cons, countRender_append, hre]
  · simp [countStatus_cons, countStatus_append, hst]

theorem moveLoop_success_step (eng : Engine γ) (gen : Nat → Except Unit String)
    (p s : String) (moves : List String) (g : γ) (i r : Nat)
    (reply : String) (cand : ParseResult) (g' : γ) (ev : Ev)
    (h1 : gen i = Except.ok reply) (h2 : parseMove reply moves = some cand)
    (h3 : applyCand eng g cand = some (g', ev)) :
    moveLoop eng gen p s moves g i (r + 1) =
      (some g', [Ev.genReq p s, Ev.resolveCall moves, ev,
        Ev.render (eng.fen g'), Ev.statusUpd]) := by
  have ha : attemptRes eng moves g (gen i) = (some (g', ev), [Ev.resolveCall moves]) := by
    rw [h1]
    simp [attemptRes, h2, h3]
  rw [moveLoop_succ, ha]
  rfl

theorem randIdx_lt (q : ℚ) (n : Nat) (h0 : 0 ≤ q) (h1 : q < 1) (hn : 0 < n) :
    (⌊q * (n : ℚ)⌋).toNat < n := by
  have hnq : (0 : ℚ) < (n : ℚ) := by exact_mod_cast hn
  have hq : q * (n : ℚ) < (n : ℚ) := by
    calc q * (n : ℚ) < 1 * (n : ℚ) := mul_lt_mul_of_pos_right h1 hnq
    _ = (n : ℚ) := one_mul _
  have h2 : ⌊q * (n : ℚ)⌋ < (n : ℤ) := by
    rw [Int.floor_lt]
    exact_mod_cast hq
  have h3 : (0 : ℤ) ≤ ⌊q * (n : ℚ)⌋ := Int.floor_nonneg.mpr (by positivity)
  omega

theorem fileChar_not_ws (c : Char) (h : fileChar c = true) :
    Char.isWhitespace c = false := by
  rw [fileChar, decide_eq_true_iff] at h
  obtain ⟨h1, h2⟩ := h
  cases hw : Char.isWhitespace c
  · rfl
  · exfalso
    rw [Char.isWhitespace] at hw
    simp only [Bool.or_eq_true, decide_eq_true_iff] at hw
    rcases hw with ((rfl | rfl) | rfl) | rfl <;> revert h1 <;> decide

theorem rankChar_not_ws (c : Char) (h : rankChar c = true) :
    Char.isWhitespace c = false := by
  rw [rankChar, decide_eq_true_iff] at h
  obtain ⟨h1, h2⟩ := h
  cases hw : Char.isWhitespace c
  · rfl
  · exfalso
    rw [Char.isWhitespace] at hw
    simp only [Bool.or_eq_true, decide_eq_true_iff] at hw
    rcases hw with ((rfl | rfl) | rfl) | rfl <;> revert h1 <;> decide

theorem isCoordToken_not_ws (t : List Char) (ht : isCoordToken t = true) :
    ∀ c ∈ t, Char.isWhitespace c = false := by
  cases t with
  | nil => cases ht
  | cons a t1 =>
    cases t1 with
    | nil => cases ht
    | cons b t2 =>
      cases t2 with
      | nil => cases ht
      | cons c3 t3 =>
        cases t3 with
        | nil => cases ht
        | cons d t4 =>
          cases t4 with
          | nil => cases ht
          | cons e t5 =>
            cases t5 with
            | cons f t6 => cases ht
            | nil =>
              rw [isCoordToken] at ht
              simp only [Bool.and_eq_true, beq_iff_eq] at ht
              obtain ⟨⟨⟨⟨ha, hb⟩, hh⟩, hd⟩, he⟩ := ht
              intro c hc
              rcases List.mem_cons.mp hc with rfl | hc
              · exact fileChar_not_ws c ha
              rcases List.mem_cons.mp hc with rfl | hc
              · exact rankChar_not_ws c hb
              rcases List.mem_cons.mp hc with rfl | hc
              · rw [hh]
                decide
              rcases List.mem_cons.mp hc with rfl | hc
              · exact fileChar_not_ws c hd
              rcases List.mem_cons.mp hc with rfl | hc
              · exact rankChar_not_ws c he
              · cases hc

/-!  Claim theorems. -/

/-- C1: for every reply containing a substring of the form
`[a-h][1-8]-[a-h][1-8]`, the resolver returns the first such occurrence of
the trimmed reply split on the hyphen as an (origin, destination) pair,
regardless of surrounding prose and independently of the supplied legal-move
list. -/
theorem c1_coord_rule (r : String) (L L' : List String)
    (h : ∃ t pre post, r.data = pre ++ t ++ post ∧ isCoordToken t = true) :
    ∃ j, coordOccursAt (jsTrim r.data) j = true ∧
      (∀ k, k < j → coordOccursAt (jsTrim r.data) k = false) ∧
      parseMove r L = some (ParseResult.pair
        (String.mk (((jsTrim r.data).drop j).take 2))
        (String.mk ((((jsTrim r.data).drop j).drop 3).take 2))) ∧
      parseMove r L = parseMove r L' := by
  obtain ⟨t, pre, post, hdec, ht⟩ := h
  have hne : t ≠ [] := by
    intro h0
    rw [h0] at ht
    cases ht
  have hws := isCoordToken_not_ws t ht
  have hsub : isSub t (jsTrim r.data) :=
    isSub_jsTrim t r.data hne hws ⟨pre, post, hdec⟩
  obtain ⟨i0, hi0⟩ := isSub_coordOccurs (jsTrim r.data) t ht hsub
  have hP : ∃ k, coordOccursAt (jsTrim r.data) k = true := ⟨i0, hi0⟩
  have hmin : ∀ k, k < Nat.find hP → coordOccursAt (jsTrim r.data) k = false :=
    fun k hk => bfalse (Nat.find_min hP hk)
  have hfind := findCoord_min (jsTrim r.data) (Nat.find hP) (Nat.find_spec hP) hmin
  refine ⟨Nat.find hP, Nat.find_spec hP, hmin, ?_, ?_⟩
  · simp only [parseMove, hfind]
  · simp only [parseMove, hfind]

theorem c1_coord_rule_witness :
    (∃ t pre post, ("Go: e2-e4!").data = pre ++ t ++ post ∧ isCoordToken t = true) ∧
    (∃ j, coordOccursAt (jsTrim ("Go: e2-e4!").data) j = true ∧
      (∀ k, k < j → coordOccursAt (jsTrim ("Go: e2-e4!").data) k = false) ∧
      parseMove "Go: e2-e4!" [] = some (ParseResult.pair
        (String.mk (((jsTrim ("Go: e2-e4!").data).drop j).take 2))
        (String.mk ((((jsTrim ("Go: e2-e4!").data).drop j).drop 3).take 2))) ∧
      parseMove "Go: e2-e4!" [] = parseMove "Go: e2-e4!" ["zz"]) :=
  ⟨⟨"e2-e4".data, "Go: ".data, "!".data, by decide, by decide⟩,
    c1_coord_rule "Go: e2-e4!" [] ["zz"]
      ⟨"e2-e4".data, "Go: ".data, "!".data, by decide, by decide⟩⟩

/-- C10: the resolution outcome is invariant under surrounding whitespace,
because the resolver trims the reply before applying any rule and trimming is
idempotent. -/
theorem c10_trim_invariant (r : String) (L : List String) :
    parseMove r L = parseMove (String.mk (jsTrim r.data)) L := by
  simp only [parseMove]
  rw [jsTrim_idem]

/-- C2 is refuted as stated: the castling alternative of the notation regex is
anchored at the start of the string, not at its end, so a castling token
followed by trailing commentary still matches (the claim says a token followed
by trailing commentary does not match). -/
theorem c2_san_rule_counterexample :
    parseMove "O-O is my choice" [] = some (ParseResult.san "O-O") := by decide

/-- C2 (amended): when rule 1 does not match, the resolver matches the
end-anchored algebraic token grammar (piece letter, disambiguation file and
rank, capture marker, mandatory destination square, promotion suffix
`=[NBRQK]`, check or mate suffix) at the leftmost start position whose whole
remaining suffix belongs to it, with the castling tokens `O-O` / `O-O-O`
matched only at the START of the trimmed reply (tried after the end-anchored
alternative at position 0), and returns the matched token exactly. -/
theorem c2_san_rule (r : String) (L : List String)
    (h1 : ∀ i, coordOccursAt (jsTrim r.data) i = false) :
    (sanSuffix (jsTrim r.data) = true →
      parseMove r L = some (ParseResult.san (String.mk (jsTrim r.data)))) ∧
    (sanSuffix (jsTrim r.data) = false →
      ∀ c, castleTok (jsTrim r.data) = some c →
        parseMove r L = some (ParseResult.san c)) ∧
    (sanSuffix (jsTrim r.data) = false →
      castleTok (jsTrim r.data) = none →
      ∀ j, 0 < j → sanSuffix ((jsTrim r.data).drop j) = true →
        ∃ k, 0 < k ∧ sanSuffix ((jsTrim r.data).drop k) = true ∧
          (∀ k', k' < k → sanSuffix ((jsTrim r.data).drop k') = false) ∧
          parseMove r L = some (ParseResult.san (String.mk ((jsTrim r.data).drop k)))) := by
  have hfc : findCoord (jsTrim r.data) = none := (findCoord_eq_none_iff _).mpr h1
  refine ⟨?_, ?_, ?_⟩
  · intro hs
    have hsf : sanFind (jsTrim r.data) = some (String.mk (jsTrim r.data)) := by
      simp [sanFind, hs]
    simp only [parseMove, hfc, hsf]
  · intro hs c hcas
    have hsf : sanFind (jsTrim r.data) = some c := by
      simp [sanFind, hs, hcas]
    simp only [parseMove, hfc, hsf]
  · intro hs hcas j hj0 hj
    have hP : ∃ k, sanSuffix ((jsTrim r.data).drop k) = true := ⟨j, hj⟩
    have hmin : ∀ k', k' < Nat.find hP → sanSuffix ((jsTrim r.data).drop k') = false :=
      fun k' hk' => bfalse (Nat.find_min hP hk')
    have hk0 : 0 < Nat.find hP := by
      rcases Nat.eq_zero_or_pos (Nat.find hP) with h0 | h0
      · have := Nat.find_spec hP
        rw [h0, List.drop_zero] at this
        rw [this] at hs
        cases hs
      · exact h0
    have hsf := sanFind_of_min (jsTrim r.data) (Nat.find hP) hk0 hs hcas
      (Nat.find_spec hP) hmin
    refine ⟨Nat.find hP, hk0, Nat.find_spec hP, hmin, ?_⟩
    simp only [parseMove, hfc, hsf]

theorem c2_san_rule_witness :
    (∀ i, coordOccursAt (jsTrim ("castle: O-O").data) i = false) ∧
    ((sanSuffix (jsTrim ("castle: O-O").data) = true →
      parseMove "castle: O-O" ["d4"] =
        some (ParseResult.san (String.mk (jsTrim ("castle: O-O").data)))) ∧
    (sanSuffix (jsTrim ("castle: O-O").data) = false →
      ∀ c, castleTok (jsTrim ("castle: O-O").data) = some c →
        parseMove "castle: O-O" ["d4"] = some (ParseResult.san c)) ∧
    (sanSuffix (jsTrim ("castle: O-O").data) = false →
      castleTok (jsTrim ("castle: O-O").data) = none →
      ∀ j, 0 < j → sanSuffix ((jsTrim ("castle: O-O").data).drop j) = true →
        ∃ k, 0 < k ∧ sanSuffix ((jsTrim ("castle: O-O").data).drop k) = true ∧
          (∀ k', k' < k → sanSuffix ((jsTrim ("castle: O-O").data).drop k') = false) ∧
          parseMove "castle: O-O" ["d4"] =
            some (ParseResult.san (String.mk ((jsTrim ("castle: O-O").data).drop k))))) :=
  ⟨(findCoord_eq_none_iff _).mp (by decide),
    c2_san_rule "castle: O-O" ["d4"] ((findCoord_eq_none_iff _).mp (by decide))⟩

/-- C3: when neither pattern rule matches, the resolver returns the first
member of the legal-move list (in list order, with its original casing) whose
lowercased text occurs in the lowercased trimmed reply. -/
theorem c3_list_rule (r : String) (L : List String) (m : String)
    (h1 : ∀ i, coordOccursAt (jsTrim r.data) i = false)
    (h2 : ∀ i, sanSuffix ((jsTrim r.data).drop i) = false)
    (h3 : castleTok (jsTrim r.data) = none)
    (hm : m ∈ L)
    (hc : isSub (lowerL m.data) (lowerL (jsTrim r.data))) :
    ∃ L₁ L₂ m', L = L₁ ++ m' :: L₂ ∧
      isSub (lowerL m'.data) (lowerL (jsTrim r.data)) ∧
      (∀ x ∈ L₁, ¬ isSub (lowerL x.data) (lowerL (jsTrim r.data))) ∧
      parseMove r L = some (ParseResult.san m') := by
  have hfc : findCoord (jsTrim r.data) = none := (findCoord_eq_none_iff _).mpr h1
  have hsf : sanFind (jsTrim r.data) = none := (sanFind_eq_none_iff _).mpr ⟨h2, h3⟩
  have hcl : listContains (lowerL (jsTrim r.data)) (lowerL m.data) = true :=
    (listContains_iff _ _).mpr hc
  obtain ⟨L₁, L₂, m', he, hc', hall, hf⟩ := firstContained_first (jsTrim r.data) L m hm hcl
  refine ⟨L₁, L₂, m', he, (listContains_iff _ _).mp hc', ?_, ?_⟩
  · intro x hx hcx
    have hx' := (listContains_iff _ _).mpr hcx
    rw [hall x hx] at hx'
    cases hx'
  · simp only [parseMove, hfc, hsf, hf, Option.map_some']

theorem c3_list_rule_witness :
    ((∀ i, coordOccursAt (jsTrim ("surely nf3 wins").data) i = false) ∧
     (∀ i, sanSuffix ((jsTrim ("surely nf3 wins").data).drop i) = false) ∧
     castleTok (jsTrim ("surely nf3 wins").data) = none ∧
     "Nf3" ∈ ["e4", "Nf3", "d4"] ∧
     isSub (lowerL ("Nf3").data) (lowerL (jsTrim ("surely nf3 wins").data))) ∧
    (∃ L₁ L₂ m', ["e4", "Nf3", "d4"] = L₁ ++ m' :: L₂ ∧
      isSub (lowerL m'.data) (lowerL (jsTrim ("surely nf3 wins").data)) ∧
      (∀ x ∈ L₁, ¬ isSub (lowerL x.data) (lowerL (jsTrim ("surely nf3 wins").data))) ∧
      parseMove "surely nf3 wins" ["e4", "Nf3", "d4"] = some (ParseResult.san m')) :=
  ⟨⟨(findCoord_eq_none_iff _).mp (by decide),
    (sanScan_eq_none_iff _).mp (by decide),
    by decide, by decide,
    (listContains_iff _ _).mp (by decide)⟩,
   c3_list_rule "surely nf3 wins" ["e4", "Nf3", "d4"] "Nf3"
    ((findCoord_eq_none_iff _).mp (by decide))
    ((sanScan_eq_none_iff _).mp (by decide))
    (by decide) (by decide)
    ((listContains_iff _ _).mp (by decide))⟩

theorem not_isSub_of_firstContained_none (tr : List Char) (L : List String)
    (h : firstContained tr L = none) :
    ∀ m ∈ L, ¬ isSub (lowerL m.data) (lowerL tr) := by
  intro m hm hsub
  have hc := (listContains_iff _ _).mpr hsub
  rw [(firstContained_eq_none_iff tr L).mp h m hm] at hc
  cases hc

/-- C8 is refuted as stated for the empty reply: with a legal-move list
containing the empty string, rule 3 matches it inside the empty reply
(JavaScript `"".includes("")` is true), so the resolver resolves rather than
returning null. -/
theorem c8_unresolved_counterexample :
    parseMove "" [""] = some (ParseResult.san "") := by decide

/-- C8 (amended): the resolver returns null for the empty reply whenever the
legal-move list does not contain the empty string (the rules engine never
supplies one); in general it returns null for any reply matching neither the
coordinate-pair pattern nor the notation pattern and containing no member of
the list as a case-insensitive substring; in particular the quoted example
reply is unresolved. -/
theorem c8_unresolved (L : List String) (r : String)
    (h0 : "" ∉ L)
    (h1 : ∀ i, coordOccursAt (jsTrim r.data) i = false)
    (h2 : ∀ i, sanSuffix ((jsTrim r.data).drop i) = false)
    (h3 : castleTok (jsTrim r.data) = none)
    (h4 : ∀ m ∈ L, ¬ isSub (lowerL m.data) (lowerL (jsTrim r.data))) :
    parseMove "" L = none ∧ parseMove r L = none ∧
      parseMove "I have no idea what to play" ["e4", "Nf3", "d4"] = none := by
  refine ⟨?_, ?_, by decide⟩
  · have hempty : firstContained [] L = none := by
      rw [firstContained_eq_none_iff]
      intro m hm
      cases hmd : m.data with
      | nil =>
        exfalso
        apply h0
        have hms : m = "" := by
          rw [show m = String.mk m.data from rfl, hmd]
        rw [← hms]
        exact hm
      | cons c t =>
        rfl
    show (firstContained [] L).map ParseResult.san = none
    rw [hempty]
    rfl
  · have hfc : findCoord (jsTrim r.data) = none := (findCoord_eq_none_iff _).mpr h1
    have hsf : sanFind (jsTrim r.data) = none := (sanFind_eq_none_iff _).mpr ⟨h2, h3⟩
    have hfcd : firstContained (jsTrim r.data) L = none := by
      rw [firstContained_eq_none_iff]
      intro m hm
      cases hc : listContains (lowerL (jsTrim r.data)) (lowerL m.data) with
      | false => rfl
      | true => exact absurd ((listContains_iff _ _).mp hc) (h4 m hm)
    simp only [parseMove, hfc, hsf, hfcd, Option.map_none']

theorem c8_unresolved_witness :
    ("" ∉ ["e4", "Nf3", "d4"] ∧
     (∀ i, coordOccursAt (jsTrim ("zzz").data) i = false) ∧
     (∀ i, sanSuffix ((jsTrim ("zzz").data).drop i) = false) ∧
     castleTok (jsTrim ("zzz").data) = none ∧
     (∀ m ∈ ["e4", "Nf3", "d4"], ¬ isSub (lowerL m.data) (lowerL (jsTrim ("zzz").data)))) ∧
    (parseMove "" ["e4", "Nf3", "d4"] = none ∧
     parseMove "zzz" ["e4", "Nf3", "d4"] = none ∧
     parseMove "I have no idea what to play" ["e4", "Nf3", "d4"] = none) :=
  ⟨⟨by decide,
    (findCoord_eq_none_iff _).mp (by decide),
    (sanScan_eq_none_iff _).mp (by decide),
    by decide,
    not_isSub_of_firstContained_none _ _ (by decide)⟩,
   c8_unresolved ["e4", "Nf3", "d4"] "zzz" (by decide)
    ((findCoord_eq_none_iff _).mp (by decide))
    ((sanScan_eq_none_iff _).mp (by decide))
    (by decide)
    (not_isSub_of_firstContained_none _ _ (by decide))⟩

theorem tryMoveOpponent_noop (eng : Engine γ) (color : String)
    (gen : Nat → Except Unit String) (q : ℚ) (g : γ)
    (h : isOpponentTurn eng color g = false ∨ eng.isGameOver g = true) :
    tryMoveOpponent eng color gen q g = (some g, []) := by
  rcases h with h | h
  · simp [tryMoveOpponent, h]
  · cases hop : isOpponentTurn eng color g
    · simp [tryMoveOpponent, hop]
    · simp [tryMoveOpponent, hop, h]

theorem tryMoveOpponent_run (eng : Engine γ) (color : String)
    (gen : Nat → Except Unit String) (q : ℚ) (g : γ)
    (hop : isOpponentTurn eng color g = true) (hov : eng.isGameOver g = false) :
    tryMoveOpponent eng color gen q g =
      (match (moveLoop eng gen (promptOf (eng.fen g) (eng.ascii g) (eng.moves g))
          (sysPromptFor color) (eng.moves g) g 0 3).1 with
       | some g' =>
         (some g', Ev.movesQ ::
           (moveLoop eng gen (promptOf (eng.fen g) (eng.ascii g) (eng.moves g))
             (sysPromptFor color) (eng.moves g) g 0 3).2)
       | none =>
         match (eng.moves g)[(⌊q * ((eng.moves g).length : ℚ)⌋).toNat]? with
         | none =>
           (none, Ev.movesQ ::
             (moveLoop eng gen (promptOf (eng.fen g) (eng.ascii g) (eng.moves g))
               (sysPromptFor color) (eng.moves g) g 0 3).2 ++ [Ev.warnRand])
         | some mv =>
           match eng.applySan g mv with
           | none =>
             (none, Ev.movesQ ::
               (moveLoop eng gen (promptOf (eng.fen g) (eng.ascii g) (eng.moves g))
                 (sysPromptFor color) (eng.moves g) g 0 3).2 ++ [Ev.warnRand])
           | some g' =>
             (some g', Ev.movesQ ::
               (moveLoop eng gen (promptOf (eng.fen g) (eng.ascii g) (eng.moves g))
                 (sysPromptFor color) (eng.moves g) g 0 3).2 ++
               [Ev.warnRand, Ev.applySanOk mv, Ev.render (eng.fen g'), Ev.statusUpd])) := by
  unfold tryMoveOpponent
  rw [hop, hov]
  rfl

/-- C6: calling the orchestrator when it is not the AI-controlled side's turn,
or when the game is over, is a no-op: the state is returned unchanged and the
trace is empty, so no generation request is issued and neither the board nor
the status displays are touched. -/
theorem c6_precondition_noop (eng : Engine γ) (color : String)
    (gen : Nat → Except Unit String) (q : ℚ) (g : γ)
    (h : isOpponentTurn eng color g = false ∨ eng.isGameOver g = true) :
    tryMoveOpponent eng color gen q g = (some g, []) ∧
    countGen (tryMoveOpponent eng color gen q g).2 = 0 ∧
    countRender (tryMoveOpponent eng color gen q g).2 = 0 ∧
    countStatus (tryMoveOpponent eng color gen q g).2 = 0 := by
  have hn := tryMoveOpponent_noop eng color gen q g h
  rw [hn]
  exact ⟨rfl, rfl, rfl, rfl⟩

theorem c6_precondition_noop_witness :
    (isOpponentTurn demoEng "white" 2 = false ∨ demoEng.isGameOver 2 = true) ∧
    (tryMoveOpponent demoEng "white" genErr 0 2 = (some 2, []) ∧
     countGen (tryMoveOpponent demoEng "white" genErr 0 2).2 = 0 ∧
     countRender (tryMoveOpponent demoEng "white" genErr 0 2).2 = 0 ∧
     countStatus (tryMoveOpponent demoEng "white" genErr 0 2).2 = 0) :=
  ⟨Or.inl (by decide),
   c6_precondition_noop demoEng "white" genErr 0 2 (Or.inl (by decide))⟩

/-- C4: when all three attempts of the retry loop fail, the fallback applies
one move chosen by the random index `Math.floor(q * moves.length)`; under the
precondition that the position is non-terminal (non-empty legal-move list)
and that the rules engine applies its own enumerated moves successfully and
advances the side to move, the index is in bounds, the chosen move is a
member of the legal-move list, the fallback cannot fail, exactly one move is
applied in the whole invocation, and the side to move changes. -/
theorem c4_fallback (eng : Engine γ) (color : String)
    (gen : Nat → Except Unit String) (q : ℚ) (g : γ)
    (hop : isOpponentTurn eng color g = true)
    (hov : eng.isGameOver g = false)
    (hq0 : 0 ≤ q) (hq1 : q < 1)
    (hne : eng.moves g ≠ [])
    (hsound : ∀ m ∈ eng.moves g, ∃ g2, eng.applySan g m = some g2)
    (hturn : ∀ m ∈ eng.moves g, ∀ g2, eng.applySan g m = some g2 →
      eng.turn g2 ≠ eng.turn g)
    (hfail : (moveLoop eng gen (promptOf (eng.fen g) (eng.ascii g) (eng.moves g))
      (sysPromptFor color) (eng.moves g) g 0 3).1 = none) :
    ∃ g' mv,
      (⌊q * ((eng.moves g).length : ℚ)⌋).toNat < (eng.moves g).length ∧
      (eng.moves g)[(⌊q * ((eng.moves g).length : ℚ)⌋).toNat]? = some mv ∧
      mv ∈ eng.moves g ∧
      eng.applySan g mv = some g' ∧
      (tryMoveOpponent eng color gen q g).1 = some g' ∧
      eng.turn g' ≠ eng.turn g ∧
      countApply (tryMoveOpponent eng color gen q g).2 = 1 := by
  have hlen : 0 < (eng.moves g).length := List.length_pos.mpr hne
  have hidx := randIdx_lt q (eng.moves g).length hq0 hq1 hlen
  have hget : (eng.moves g)[(⌊q * ((eng.moves g).length : ℚ)⌋).toNat]? =
      some ((eng.moves g).get ⟨(⌊q * ((eng.moves g).length : ℚ)⌋).toNat, hidx⟩) := by
    rw [List.getElem?_eq_getElem hidx]
    rfl
  have hmem : (eng.moves g).get ⟨(⌊q * ((eng.moves g).length : ℚ)⌋).toNat, hidx⟩ ∈
      eng.moves g := List.get_mem _ _ _
  obtain ⟨g', hg'⟩ :=
    hsound ((eng.moves g).get ⟨(⌊q * ((eng.moves g).length : ℚ)⌋).toNat, hidx⟩) hmem
  have hrun : tryMoveOpponent eng color gen q g =
      (some g', Ev.movesQ ::
        (moveLoop eng gen (promptOf (eng.fen g) (eng.ascii g) (eng.moves g))
          (sysPromptFor color) (eng.moves g) g 0 3).2 ++
        [Ev.warnRand,
         Ev.applySanOk ((eng.moves g).get ⟨(⌊q * ((eng.moves g).length : ℚ)⌋).toNat, hidx⟩),
         Ev.render (eng.fen g'), Ev.statusUpd]) := by
    rw [tryMoveOpponent_run eng color gen q g hop hov, hfail, hget]
    dsimp only
    rw [hg']
  obtain ⟨-, hap0, -, -, -, -⟩ := moveLoop_none_counts eng gen
    (promptOf (eng.fen g) (eng.ascii g) (eng.moves g)) (sysPromptFor color)
    (eng.moves g) g 3 0 hfail
  refine ⟨g', (eng.moves g).get ⟨(⌊q * ((eng.moves g).length : ℚ)⌋).toNat, hidx⟩,
    hidx, hget, hmem, hg', ?_, hturn _ hmem g' hg', ?_⟩
  · rw [hrun]
  · rw [hrun]
    simp [countApply_cons, countApply_append, countApply_nil, hap0, Ev.warnRand]

theorem c4_fallback_witness :
    ∃ g' mv,
      (⌊(0 : ℚ) * ((demoEng.moves 1).length : ℚ)⌋).toNat < (demoEng.moves 1).length ∧
      (demoEng.moves 1)[(⌊(0 : ℚ) * ((demoEng.moves 1).length : ℚ)⌋).toNat]? = some mv ∧
      mv ∈ demoEng.moves 1 ∧
      demoEng.applySan 1 mv = some g' ∧
      (tryMoveOpponent demoEng "white" genErr 0 1).1 = some g' ∧
      demoEng.turn g' ≠ demoEng.turn 1 ∧
      countApply (tryMoveOpponent demoEng "white" genErr 0 1).2 = 1 :=
  c4_fallback demoEng "white" genErr 0 1 (by decide) rfl (le_refl 0) zero_lt_one
    (by decide) (fun _ _ => ⟨2, rfl⟩)
    (fun _ _ g2 h => by
      injection h with h1
      rw [← h1]
      decide)
    (by decide)

theorem moveLoop_countMovesQ (eng : Engine γ) (gen : Nat → Except Unit String)
    (p s : String) (moves : List String) (g : γ) :
    ∀ r i, countMovesQ (moveLoop eng gen p s moves g i r).2 = 0 := by
  intro r
  induction r with
  | zero =>
    intro i
    simp [moveLoop_zero, countMovesQ_nil]
  | succ r ih =>
    intro i
    rw [moveLoop_succ]
    obtain ⟨-, -, -, -, hmq, -, -⟩ := attemptRes_evs eng moves g (gen i)
    cases ha : (attemptRes eng moves g (gen i)).1 with
    | none =>
      have := ih (i + 1)
      simp [countMovesQ_cons, countMovesQ_append, hmq, this]
    | some ge =>
      obtain ⟨g', ev⟩ := ge
      obtain ⟨reply, cand, -, -, hac, -⟩ := attemptRes_some eng moves g (gen i) g' ev ha
      obtain ⟨-, -, -, -, hevq, -⟩ := applyCand_ev eng g cand g' ev hac
      simp [countMovesQ_cons, countMovesQ_append, countMovesQ_nil, hmq, hevq]

theorem tryMoveOpponent_countGen_le (eng : Engine γ) (color : String)
    (gen : Nat → Except Unit String) (q : ℚ) (g : γ) :
    countGen (tryMoveOpponent eng color gen q g).2 ≤ 3 := by
  cases hop : isOpponentTurn eng color g with
  | false =>
    rw [tryMoveOpponent_noop eng color gen q g (Or.inl hop)]
    exact Nat.zero_le 3
  | true =>
    cases hov : eng.isGameOver g with
    | true =>
      rw [tryMoveOpponent_noop eng color gen q g (Or.inr hov)]
      exact Nat.zero_le 3
    | false =>
      have hle := moveLoop_countGen_le eng gen
        (promptOf (eng.fen g) (eng.ascii g) (eng.moves g)) (sysPromptFor color)
        (eng.moves g) g 3 0
      rw [tryMoveOpponent_run eng color gen q g hop hov]
      split
      · simp [countGen_cons]
        omega
      · split
        · simp [countGen_cons, countGen_append, countGen_nil, Ev.warnRand]
          omega
        · split
          · simp [countGen_cons, countGen_append, countGen_nil, Ev.warnRand]
            omega
          · simp [countGen_cons, countGen_append, countGen_nil, Ev.warnRand]
            omega

/-- C5: per invocation at most 3 generation requests are issued; a generation
error, an unresolved reply and an engine rejection each consume exactly one
attempt, handled identically (one logged error, the loop continues, nothing
else happens); and the loop stops immediately after the first successfully
applied move, issuing no further generation request. -/
theorem c5_attempts (eng : Engine γ) (color : String)
    (gen : Nat → Except Unit String) (q : ℚ) (g : γ)
    (p s : String) (moves : List String) (i r : Nat)
    (reply : String) (cand : ParseResult) (g' : γ) (ev : Ev) :
    countGen (tryMoveOpponent eng color gen q g).2 ≤ 3 ∧
    ((gen i = Except.error () ∨
      (gen i = Except.ok reply ∧ parseMove reply moves = none) ∨
      (gen i = Except.ok reply ∧ parseMove reply moves = some cand ∧
        applyCand eng g cand = none)) →
      ((moveLoop eng gen p s moves g i (r + 1)).1 =
        (moveLoop eng gen p s moves g (i + 1) r).1 ∧
       countGen (moveLoop eng gen p s moves g i (r + 1)).2 =
         countGen (moveLoop eng gen p s moves g (i + 1) r).2 + 1 ∧
       countErr (moveLoop eng gen p s moves g i (r + 1)).2 =
         countErr (moveLoop eng gen p s moves g (i + 1) r).2 + 1 ∧
       countApply (moveLoop eng gen p s moves g i (r + 1)).2 =
         countApply (moveLoop eng gen p s moves g (i + 1) r).2 ∧
       countRender (moveLoop eng gen p s moves g i (r + 1)).2 =
         countRender (moveLoop eng gen p s moves g (i + 1) r).2 ∧
       countStatus (moveLoop eng gen p s moves g i (r + 1)).2 =
         countStatus (moveLoop eng gen p s moves g (i + 1) r).2)) ∧
    ((gen i = Except.ok reply ∧ parseMove reply moves = some cand ∧
        applyCand eng g cand = some (g', ev)) →
      moveLoop eng gen p s moves g i (r + 1) =
        (some g', [Ev.genReq p s, Ev.resolveCall moves, ev,
          Ev.render (eng.fen g'), Ev.statusUpd])) := by
  refine ⟨tryMoveOpponent_countGen_le eng color gen q g, ?_, ?_⟩
  · intro h
    apply moveLoop_fail_step
    rcases h with h | ⟨h1, h2⟩ | ⟨h1, h2, h3⟩
    · exact Or.inl h
    · exact Or.inr (Or.inl ⟨reply, h1, h2⟩)
    · exact Or.inr (Or.inr ⟨reply, cand, h1, h2, h3⟩)
  · rintro ⟨h1, h2, h3⟩
    exact moveLoop_success_step eng gen p s moves g i r reply cand g' ev h1 h2 h3

theorem c5_attempts_witness :
    countGen (tryMoveOpponent demoEng "white" genLate 0 1).2 ≤ 3 ∧
    ((genLate 0 = Except.error () ∨
      (genLate 0 = Except.ok "e4" ∧ parseMove "e4" ["e4", "Nf3", "d4"] = none) ∨
      (genLate 0 = Except.ok "e4" ∧
        parseMove "e4" ["e4", "Nf3", "d4"] = some (ParseResult.san "e4") ∧
        applyCand demoEng 1 (ParseResult.san "e4") = none)) →
      ((moveLoop demoEng genLate "p" "s" ["e4", "Nf3", "d4"] 1 0 (1 + 1)).1 =
        (moveLoop demoEng genLate "p" "s" ["e4", "Nf3", "d4"] 1 (0 + 1) 1).1 ∧
       countGen (moveLoop demoEng genLate "p" "s" ["e4", "Nf3", "d4"] 1 0 (1 + 1)).2 =
         countGen (moveLoop demoEng genLate "p" "s" ["e4", "Nf3", "d4"] 1 (0 + 1) 1).2 + 1 ∧
       countErr (moveLoop demoEng genLate "p" "s" ["e4", "Nf3", "d4"] 1 0 (1 + 1)).2 =
         countErr (moveLoop demoEng genLate "p" "s" ["e4", "Nf3", "d4"] 1 (0 + 1) 1).2 + 1 ∧
       countApply (moveLoop demoEng genLate "p" "s" ["e4", "Nf3", "d4"] 1 0 (1 + 1)).2 =
         countApply (moveLoop demoEng genLate "p" "s" ["e4", "Nf3", "d4"] 1 (0 + 1) 1).2 ∧
       countRender (moveLoop demoEng genLate "p" "s" ["e4", "Nf3", "d4"] 1 0 (1 + 1)).2 =
         countRender (moveLoop demoEng genLate "p" "s" ["e4", "Nf3", "d4"] 1 (0 + 1) 1).2 ∧
       countStatus (moveLoop demoEng genLate "p" "s" ["e4", "Nf3", "d4"] 1 0 (1 + 1)).2 =
         countStatus (moveLoop demoEng genLate "p" "s" ["e4", "Nf3", "d4"] 1 (0 + 1) 1).2)) ∧
    ((genLate 0 = Except.ok "e4" ∧
      parseMove "e4" ["e4", "Nf3", "d4"] = some (ParseResult.san "e4") ∧
      applyCand demoEng 1 (ParseResult.san "e4") = some (2, Ev.applySanOk "e4")) →
      moveLoop demoEng genLate "p" "s" ["e4", "Nf3", "d4"] 1 0 (1 + 1) =
        (some 2, [Ev.genReq "p" "s", Ev.resolveCall ["e4", "Nf3", "d4"],
          Ev.applySanOk "e4", Ev.render (demoEng.fen 2), Ev.statusUpd])) :=
  c5_attempts demoEng "white" genLate 0 1 "p" "s" ["e4", "Nf3", "d4"] 0 1 "e4"
    (ParseResult.san "e4") 2 (Ev.applySanOk "e4")

/-- C7 is refuted as stated: a run whose three attempts all consume a
generation request queries the rules engine's legal-move enumeration only
once (at entry, before the loop), not once per attempt. -/
theorem c7_fresh_moves_counterexample :
    countGen (tryMoveOpponent demoEng "white" genLate 0 1).2 = 3 ∧
    countMovesQ (tryMoveOpponent demoEng "white" genLate 0 1).2 = 1 := by decide

/-- C7 (amended): the legal-move list is enumerated exactly once per
invocation, before the retry loop; every resolver call of the invocation
receives exactly that list, which is the engine's enumeration for the
position current at that attempt, because failed attempts leave the position
unchanged. -/
theorem c7_moves_once (eng : Engine γ) (color : String)
    (gen : Nat → Except Unit String) (q : ℚ) (g : γ)
    (hop : isOpponentTurn eng color g = true)
    (hov : eng.isGameOver g = false) :
    countMovesQ (tryMoveOpponent eng color gen q g).2 = 1 ∧
    (∀ L', Ev.resolveCall L' ∈ (tryMoveOpponent eng color gen q g).2 →
      L' = eng.moves g) := by
  have hq0 := moveLoop_countMovesQ eng gen
    (promptOf (eng.fen g) (eng.ascii g) (eng.moves g)) (sysPromptFor color)
    (eng.moves g) g 3 0
  have hres := moveLoop_resolve eng gen
    (promptOf (eng.fen g) (eng.ascii g) (eng.moves g)) (sysPromptFor color)
    (eng.moves g) g 3 0
  rw [tryMoveOpponent_run eng color gen q g hop hov]
  constructor
  · split
    · simp [countMovesQ_cons, hq0]
    · split
      · simp [countMovesQ_cons, countMovesQ_append, countMovesQ_nil, hq0, Ev.warnRand]
      · split
        · simp [countMovesQ_cons, countMovesQ_append, countMovesQ_nil, hq0, Ev.warnRand]
        · simp [countMovesQ_cons, countMovesQ_append, countMovesQ_nil, hq0, Ev.warnRand]
  · intro L' hmem
    revert hmem
    split
    · intro hmem
      rcases List.mem_cons.mp hmem with h | h
      · exact absurd h (by simp)
      · exact hres L' h
    · split
      · intro hmem
        rcases List.mem_cons.mp hmem with h | h
        · exact absurd h (by simp)
        rcases List.mem_append.mp h with h | h
        · exact hres L' h
        · exact absurd h (by simp [Ev.warnRand])
      · split
        · intro hmem
          rcases List.mem_cons.mp hmem with h | h
          · exact absurd h (by simp)
          rcases List.mem_append.mp h with h | h
          · exact hres L' h
          · exact absurd h (by simp [Ev.warnRand])
        · intro hmem
          rcases List.mem_cons.mp hmem with h | h
          · exact absurd h (by simp)
          rcases List.mem_append.mp h with h | h
          · exact hres L' h
          · exact absurd h (by simp [Ev.warnRand])

theorem c7_moves_once_witness :
    (isOpponentTurn demoEng "white" 1 = true ∧ demoEng.isGameOver 1 = false) ∧
    (countMovesQ (tryMoveOpponent demoEng "white" genLate 0 1).2 = 1 ∧
     (∀ L', Ev.resolveCall L' ∈ (tryMoveOpponent demoEng "white" genLate 0 1).2 →
       L' = demoEng.moves 1)) :=
  ⟨⟨by decide, rfl⟩, c7_moves_once demoEng "white" genLate 0 1 (by decide) rfl⟩

/-- C9: failed attempts are atomic.  A fully failed loop performs no move
application, no board redraw and no status refresh; a successful loop
iteration applies its candidate to the state the invocation entered with
(failed attempts left it unchanged); and an invocation whose trace contains
no application event returns the entry state unchanged. -/
theorem c9_atomic_failures (eng : Engine γ) (color : String)
    (gen : Nat → Except Unit String) (q : ℚ) (g : γ)
    (p s : String) (moves : List String) :
    (∀ r i, (moveLoop eng gen p s moves g i r).1 = none →
      countApply (moveLoop eng gen p s moves g i r).2 = 0 ∧
      countRender (moveLoop eng gen p s moves g i r).2 = 0 ∧
      countStatus (moveLoop eng gen p s moves g i r).2 = 0) ∧
    (∀ r i g', (moveLoop eng gen p s moves g i r).1 = some g' →
      ∃ k reply cand ev, gen k = Except.ok reply ∧
        parseMove reply moves = some cand ∧
        applyCand eng g cand = some (g', ev)) ∧
    (∀ g', (tryMoveOpponent eng color gen q g).1 = some g' →
      countApply (tryMoveOpponent eng color gen q g).2 = 0 → g' = g) := by
  refine ⟨?_, ?_, ?_⟩
  · intro r i h
    obtain ⟨-, h1, h2, h3, -, -⟩ := moveLoop_none_counts eng gen p s moves g r i h
    exact ⟨h1, h2, h3⟩
  · intro r i g' h
    obtain ⟨k, reply, cand, ev, evs₁, -, -, hgen, hpar, happ, -, -, -, -, -, -⟩ :=
      moveLoop_some eng gen p s moves g r i g' h
    exact ⟨k, reply, cand, ev, hgen, hpar, happ⟩
  · intro g' hres hcount
    cases hop : isOpponentTurn eng color g with
    | false =>
      rw [tryMoveOpponent_noop eng color gen q g (Or.inl hop)] at hres
      injection hres with h1
      exact h1.symm
    | true =>
      cases hov : eng.isGameOver g with
      | true =>
        rw [tryMoveOpponent_noop eng color gen q g (Or.inr hov)] at hres
        injection hres with h1
        exact h1.symm
      | false =>
        rw [tryMoveOpponent_run eng color gen q g hop hov] at hres hcount
        revert hres hcount
        split
        · rename_i g2 hsome
          intro hres hcount
          exfalso
          obtain ⟨k, reply, cand, ev, evs₁, -, -, -, -, happ, htr, hc1, -, -, -, -⟩ :=
            moveLoop_some eng gen (promptOf (eng.fen g) (eng.ascii g) (eng.moves g))
              (sysPromptFor color) (eng.moves g) g 3 0 g2 hsome
          obtain ⟨-, hevap, -, -, -, -⟩ := applyCand_ev eng g cand g2 ev happ
          rw [htr] at hcount
          simp [countApply_cons, countApply_append, countApply_nil, hc1, hevap] at hcount
        · split
          · intro hres hcount
            cases hres
          · split
            · intro hres hcount
              cases hres
            · rename_i x2 hfail x1 mv hget x0 g2 happly
              intro hres hcount
              exfalso
              obtain ⟨-, hap0, -, -, -, -⟩ := moveLoop_none_counts eng gen
                (promptOf (eng.fen g) (eng.ascii g) (eng.moves g)) (sysPromptFor color)
                (eng.moves g) g 3 0 hfail
              rw [show Ev.warnRand = Ev.errLog from rfl] at hcount
              simp [countApply_cons, countApply_append, countApply_nil, hap0] at hcount

theorem c9_atomic_failures_witness :
    (∀ r i, (moveLoop demoEng genErr "p" "s" ["e4"] 1 i r).1 = none →
      countApply (moveLoop demoEng genErr "p" "s" ["e4"] 1 i r).2 = 0 ∧
      countRender (moveLoop demoEng genErr "p" "s" ["e4"] 1 i r).2 = 0 ∧
      countStatus (moveLoop demoEng genErr "p" "s" ["e4"] 1 i r).2 = 0) ∧
    (∀ r i g', (moveLoop demoEng genErr "p" "s" ["e4"] 1 i r).1 = some g' →
      ∃ k reply cand ev, genErr k = Except.ok reply ∧
        parseMove reply ["e4"] = some cand ∧
        applyCand demoEng 1 cand = some (g', ev)) ∧
    (∀ g', (tryMoveOpponent demoEng "white" genErr 0 1).1 = some g' →
      countApply (tryMoveOpponent demoEng "white" genErr 0 1).2 = 0 → g' = 1) :=
  c9_atomic_failures demoEng "white" genErr 0 1 "p" "s" ["e4"]
